import Mathlib

/-!
Verification development for the IntelliDocs document question-answering
pipeline (src/app.py).  The pipeline functions are embedded shallowly:
text is modelled as `List Char` and the Python string operations used by
the source (`in`, `split`, `replace`, `strip`, `lower`, `endswith`) are
given executable structural definitions with the same semantics.
External collaborators (the langchain text splitter, the embedding and
generation backends, FAISS similarity search) are parameters of the
embedded functions, since their code is not part of this repository.
-/

/-! ## Text representation and Python string primitives -/

abbrev Str := List Char

/-- Coerce a Lean string literal to the `List Char` text representation. -/
def sl (s : String) : Str := s.data

/-- Python `needle in hay` (substring containment). -/
def strContains : Str → Str → Bool
  | [], needle => needle.isEmpty
  | c :: t, needle => needle.isPrefixOf (c :: t) || strContains t needle

/-- Python `s.split(sep)` for a single-character separator. -/
def splitChar (sep : Char) : Str → List Str
  | [] => [[]]
  | c :: rest =>
    match splitChar sep rest with
    | [] => [[]]
    | l :: ls => if c = sep then [] :: l :: ls else (c :: l) :: ls

/-- Index of the first occurrence of `sep` in the text, if any. -/
def firstOcc : Str → Str → Option Nat
  | _, [] => none
  | sep, c :: rest =>
    if sep.isPrefixOf (c :: rest) then some 0
    else (firstOcc sep rest).map (· + 1)

/-- Fuel-driven worker for `pySplit`; the fuel bounds the number of cuts. -/
def splitFuel (sep : Str) : Nat → Str → List Str
  | 0, s => [s]
  | fuel + 1, s =>
    match firstOcc sep s with
    | none => [s]
    | some i => s.take i :: splitFuel sep fuel (s.drop (i + sep.length))

/-- Python `s.split(sep)` for a non-empty multi-character separator.
One character is consumed past each cut, so `s.length` cuts suffice. -/
def pySplit (sep s : Str) : List Str :=
  if sep = [] then [s] else splitFuel sep s.length s

/-- Fuel-driven worker for `pyReplace`. -/
def replFuel (sep repl : Str) : Nat → Str → Str
  | 0, s => s
  | fuel + 1, s =>
    match firstOcc sep s with
    | none => s
    | some i => s.take i ++ repl ++ replFuel sep repl fuel (s.drop (i + sep.length))

/-- Python `s.replace(sep, repl)` (all occurrences, left to right). -/
def pyReplace (s sep repl : Str) : Str :=
  if sep = [] then s else replFuel sep repl s.length s

/-- Python `s.strip()`: drop whitespace from both ends. -/
def trimL (s : Str) : Str :=
  ((s.dropWhile Char.isWhitespace).reverse.dropWhile Char.isWhitespace).reverse

/-- Python `s.lower()`. -/
def lowerL (s : Str) : Str := s.map Char.toLower

/-- Python `s.endswith(sfx)`. -/
def endsWithL (sfx s : Str) : Bool := sfx.isSuffixOf s

/-- Decimal digit character for a value below ten. -/
def digitCh (d : Nat) : Char := Char.ofNat (48 + d)

/-- Fuel-driven decimal printer worker. -/
def natStrAux : Nat → Nat → Str
  | 0, _ => []
  | fuel + 1, n =>
    if n < 10 then [digitCh n]
    else natStrAux fuel (n / 10) ++ [digitCh (n % 10)]

/-- Python `str(n)` for a natural number. -/
def natStr (n : Nat) : Str := natStrAux (n + 1) n

/-! ## Embedding of src/app.py

An uploaded PDF is modelled by its name, byte size, whether `PdfReader`
can open it, and its pages; a page is `some text` when
`page.extract_text()` returns `text` and `none` when it raises. -/

structure UploadedFile where
  name : Str
  sizeBytes : Nat
  readerOk : Bool
  pages : List (Option Str)
  deriving DecidableEq

/-- Page loop of `get_pdf_text` (src/app.py:144-148) for one document.
The page counter `n` is the 0-based `enumerate` index.  A page whose
extracted text is whitespace-only contributes nothing; a page that
raises (`none`) ends the loop for this document, because the `try` of
src/app.py:142-151 wraps the whole page loop and its handler `continue`s
with the next document. -/
def pagesText (name : Str) : List (Option Str) → Nat → Str
  | [], _ => []
  | none :: _, _ => []
  | some t :: rest, n =>
    (if !(trimL t).isEmpty then
        sl "\n\n--- Page " ++ natStr (n + 1) ++ sl " of " ++ name ++ sl " ---\n" ++ t
      else []) ++ pagesText name rest (n + 1)

/-- Text contributed by one document in `get_pdf_text`: nothing when
`PdfReader` raises, otherwise the page loop's output. -/
def docText (d : UploadedFile) : Str :=
  if d.readerOk then pagesText d.name d.pages 0 else []

/-- `get_pdf_text` (src/app.py:137-152): concatenate per-document text. -/
def get_pdf_text (docs : List UploadedFile) : Str :=
  docs.foldl (fun acc d => acc ++ docText d) []

/-- `get_text_chunks` (src/app.py:154-161).  The langchain
`RecursiveCharacterTextSplitter` is external library code, so the
configured splitter is a parameter `splitter chunk_size chunk_overlap
text`; the repository's own code only filters its output, keeping
chunks whose stripped length exceeds 100. -/
def get_text_chunks (splitter : Int → Int → Str → List Str)
    (chunk_size chunk_overlap : Int) (text : Str) : List Str :=
  (splitter chunk_size chunk_overlap text).filter
    (fun c => decide (100 < (trimL c).length))

/-- The spec's chunk-configuration precondition `0 ≤ overlap < chunk_size`. -/
def validChunkConfig (chunk_size chunk_overlap : Int) : Prop :=
  0 ≤ chunk_overlap ∧ chunk_overlap < chunk_size

/-- Inner parse of one line of `extract_source_info`
(src/app.py:253-265).  `none` models both the fall-through when
`len(parts) > 1` fails and the `except: continue` when
`parts[0].split('--- Page ')[1]` raises `IndexError`. -/
def parseSourceLine (line : Str) : Option (Str × Str) :=
  if strContains line (sl "--- Page") && strContains line (sl "of") then
    let parts := pySplit (sl " of ") line
    if parts.length > 1 then
      let filename := trimL (pyReplace (parts.getD 1 []) (sl " ---") [])
      let pageParts := pySplit (sl "--- Page ") (parts.getD 0 [])
      if pageParts.length > 1 then
        some (filename, trimL (pageParts.getD 1 []))
      else none
    else none
  else none

/-- `extract_source_info` (src/app.py:250-266): the first line that
parses yields the `(document, page)` citation; otherwise `None`. -/
def extract_source_info (content : Str) : Option (Str × Str) :=
  (splitChar '\n' content).findSome? parseSourceLine

/-- The `{'answer': ..., 'sources': ...}` dictionary returned by
`process_question`. -/
structure QueryResult where
  answer : Str
  sources : List (Str × Str)
  deriving DecidableEq

/-- `process_question` (src/app.py:207-248).  `similarity_search` and
the QA chain are external backends, passed as `search` and `gen`; both
may raise, modelled by `Except` (the message is Python's `str(e)`).
The second component of the result records whether the generation
backend was invoked. -/
def process_question (vector_store : Option (List Str))
    (search : List Str → Str → Nat → Except Str (List Str))
    (gen : List Str → Str → Except Str Str)
    (question : Str) : QueryResult × Bool :=
  match vector_store with
  | none => (⟨sl "Please upload and process documents first.", []⟩, false)
  | some vs =>
    match search vs question 5 with
    | .error e => (⟨sl "Error processing question: " ++ e, []⟩, false)
    | .ok docs =>
      if docs.isEmpty then
        (⟨sl "No relevant information found in the documents.", []⟩, false)
      else
        match gen docs question with
        | .error e => (⟨sl "Error processing question: " ++ e, []⟩, true)
        | .ok output => (⟨output, docs.filterMap extract_source_info⟩, true)

/-- `validate_pdf_file` (src/app.py:268-291), reduced to its boolean
verdict: size within `MAX_FILE_SIZE_MB`, name ends with `.pdf` after
lowercasing, the container opens, and the page count is nonzero. -/
def validate_pdf_file (maxSizeMB : Nat) (f : UploadedFile) : Bool :=
  decide (f.sizeBytes ≤ maxSizeMB * 1024 * 1024) &&
    endsWithL (sl ".pdf") (lowerL f.name) &&
    f.readerOk && decide (f.pages.length ≠ 0)

/-- Per-document metadata stored in `st.session_state.processed_documents`
(src/app.py:464-469).  The floating-point `size_mb` field is not used by
any claim and is omitted. -/
structure Metadata where
  pages : Nat
  chunks : Nat
  processed_time : Str
  deriving DecidableEq

/-- Python dict update: replace in place when the key exists (insertion
order is kept), append otherwise. -/
def dictInsert (k : Str) (v : Metadata) :
    List (Str × Metadata) → List (Str × Metadata)
  | [] => [(k, v)]
  | (k', v') :: rest =>
    if k' = k then (k', v) :: rest else (k', v') :: dictInsert k v rest

/-- The session state touched by ingestion: the document registry and
the FAISS index reference.  The index is modelled by the list of chunk
texts it was built from. -/
structure AppState where
  processed_documents : List (Str × Metadata)
  vector_store : Option (List Str)
  deriving DecidableEq

/-- One iteration of the loop of `process_documents`
(src/app.py:434-475) over `(all_text_chunks, processed_documents)`:
skip invalid files, files with no extracted text, and files with no
surviving chunks; otherwise extend the chunk batch and update the
registry. -/
def processOne (splitter : Int → Int → Str → List Str)
    (chunk_size chunk_overlap : Int) (maxSizeMB : Nat) (time : Str)
    (acc : List Str × List (Str × Metadata)) (f : UploadedFile) :
    List Str × List (Str × Metadata) :=
  if !validate_pdf_file maxSizeMB f then acc
  else
    let text := get_pdf_text [f]
    if (trimL text).isEmpty then acc
    else
      let chunks := get_text_chunks splitter chunk_size chunk_overlap text
      if chunks.isEmpty then acc
      else (acc.1 ++ chunks,
            dictInsert f.name ⟨f.pages.length, chunks.length, time⟩ acc.2)

/-- The whole ingestion loop of `process_documents`, started from an
empty chunk batch and the current registry. -/
def ingestScan (splitter : Int → Int → Str → List Str)
    (chunk_size chunk_overlap : Int) (maxSizeMB : Nat) (time : Str)
    (files : List UploadedFile) (registry : List (Str × Metadata)) :
    List Str × List (Str × Metadata) :=
  files.foldl (processOne splitter chunk_size chunk_overlap maxSizeMB time)
    ([], registry)

/-- `process_documents` (src/app.py:426-491).  `get_vector_store`
(src/app.py:163-172) wraps `FAISS.from_texts` over the embedding
backend in a `try` and returns `None` on failure; `embedOk` tells
whether that call succeeds for a given chunk batch.  The session
`vector_store` is reassigned only when the build succeeds
(src/app.py:480-482), so a failed build keeps the previous index. -/
def process_documents (splitter : Int → Int → Str → List Str)
    (chunk_size chunk_overlap : Int) (maxSizeMB : Nat) (time : Str)
    (embedOk : List Str → Bool) (files : List UploadedFile)
    (st : AppState) : AppState :=
  let scan := ingestScan splitter chunk_size chunk_overlap maxSizeMB time
    files st.processed_documents
  if scan.1.isEmpty then { st with processed_documents := scan.2 }
  else if embedOk scan.1 then
    { processed_documents := scan.2, vector_store := some scan.1 }
  else
    { processed_documents := scan.2, vector_store := st.vector_store }

/-- A file is accepted by the ingestion loop when it validates, yields
some extracted text, and yields at least one surviving chunk. -/
def acceptedFile (splitter : Int → Int → Str → List Str)
    (chunk_size chunk_overlap : Int) (maxSizeMB : Nat)
    (f : UploadedFile) : Bool :=
  validate_pdf_file maxSizeMB f &&
    !(trimL (get_pdf_text [f])).isEmpty &&
    !(get_text_chunks splitter chunk_size chunk_overlap (get_pdf_text [f])).isEmpty

/-! ## Spec-side notions for claim C2

The spec assigns every character of the extracted text to a page; these
definitions follow the spec's words ("a chunk inherits the document/page
tags of every PageSpan it overlaps", "the first page it contains") and
exist only to compare the code's citation against the spec's notion of
a chunk's starting page.  `pageSegments` mirrors `pagesText` segment by
segment, so the extracted text is the concatenation of the segments. -/

/-- Spec notion: the extracted text of a document, cut into its
per-page segments, each tagged with its 1-based page number. -/
def pageSegments (name : Str) : List (Option Str) → Nat → List (Nat × Str)
  | [], _ => []
  | none :: _, _ => []
  | some t :: rest, n =>
    (if !(trimL t).isEmpty then
        [(n + 1,
          sl "\n\n--- Page " ++ natStr (n + 1) ++ sl " of " ++ name ++ sl " ---\n" ++ t)]
      else []) ++ pageSegments name rest (n + 1)

/-- Spec notion: the page owning character position `i` of the
extracted text, read off the page segments. -/
def pageOfPos : List (Nat × Str) → Nat → Option Nat
  | [], _ => none
  | (p, s) :: rest, i =>
    if i < s.length then some p else pageOfPos rest (i - s.length)

/-! ## Concrete instances used by witnesses and counterexamples -/

/-- A page text of more than one hundred non-whitespace-trimmed characters. -/
def longPage : Str :=
  sl "The quick brown fox jumps over the lazy dog again and again, giving well over one hundred characters of page text for chunking."

/-- A chunk long enough to survive the length filter. -/
def longChunkA : Str :=
  sl "Alpha alpha alpha alpha alpha alpha alpha alpha alpha alpha alpha alpha alpha alpha alpha alpha alpha alpha alpha."

/-- A chunk far below the length threshold. -/
def shortChunkB : Str := sl "tiny"

/-- A splitter stub returning one long and one short chunk. -/
def stubSplitAB : Int → Int → Str → List Str := fun _ _ _ => [longChunkA, shortChunkB]

/-- A splitter stub returning the whole text as a single chunk, the
behavior of the external `RecursiveCharacterTextSplitter` on any text
no longer than the configured chunk size. -/
def stubSplitId : Int → Int → Str → List Str := fun _ _ t => [t]

/-- A well-formed one-page upload. -/
def fileGood : UploadedFile := ⟨sl "a.pdf", 2048, true, [some longPage]⟩

/-- A retrieval stub finding nothing. -/
def searchEmpty : List Str → Str → Nat → Except Str (List Str) :=
  fun _ _ _ => .ok []

/-- A retrieval stub returning the same marker-bearing chunk twice. -/
def searchDup : List Str → Str → Nat → Except Str (List Str) :=
  fun _ _ _ => .ok [sl "\n\n--- Page 2 of doc.pdf ---\nbody", sl "\n\n--- Page 2 of doc.pdf ---\nbody"]

/-- A generation stub that always answers. -/
def genStub : List Str → Str → Except Str Str := fun _ _ => .ok (sl "answer")

/-- A generation stub that always raises. -/
def genFail : List Str → Str → Except Str Str := fun _ _ => .error (sl "boom")

/-- An embedding backend stub that always fails. -/
def embedFail : List Str → Bool := fun _ => false

/-- An embedding backend stub that always succeeds. -/
def embedGood : List Str → Bool := fun _ => true

/-- A session state holding one previously built index and one registry entry. -/
def st0 : AppState :=
  ⟨[(sl "a.pdf", ⟨2, 3, sl "t1"⟩)], some [sl "oldchunk"]⟩

/-- A document whose second page raises during text extraction while
its third page is decodable. -/
def fileBroken : UploadedFile :=
  ⟨sl "d.pdf", 9, true, [some (sl "alpha"), none, some (sl "gamma")]⟩

/-- A retrieval stub returning one chunk that carries no page marker. -/
def searchNoMark : List Str → Str → Nat → Except Str (List Str) :=
  fun _ _ _ => .ok [sl "plain chunk without any marker"]

/-- First page text of the two-page document used against claim C2. -/
def page1 : Str := sl "Alpha alpha alpha alpha alpha alpha alpha alpha."

/-- Second page text of the two-page document used against claim C2. -/
def page2 : Str :=
  sl "Beta beta beta beta beta beta beta beta beta beta beta beta."

/-- A readable two-page document. -/
def docTwoPages : UploadedFile := ⟨sl "doc.pdf", 4096, true, [some page1, some page2]⟩

/-- The extracted text of `docTwoPages`. -/
def twoPageText : Str := get_pdf_text [docTwoPages]

/-- A chunk of the extracted text that starts inside page 1 and runs to
the end of page 2, hence spans the page boundary. -/
def spanChunk : Str := (twoPageText.drop 60).take 104

/-! ## Claim C1 -/

/-- C1: every chunk returned by `get_text_chunks` has a trimmed length
of at least 100 characters, and every chunk of the splitter's output
whose trimmed length is below 100 is discarded. -/
theorem c1_chunk_min_length (splitter : Int → Int → Str → List Str)
    (chunk_size chunk_overlap : Int) (text : Str) :
    (∀ c ∈ get_text_chunks splitter chunk_size chunk_overlap text,
        100 ≤ (trimL c).length) ∧
    (∀ c ∈ splitter chunk_size chunk_overlap text, (trimL c).length < 100 →
        c ∉ get_text_chunks splitter chunk_size chunk_overlap text) := by
  constructor
  · intro c hc
    rw [get_text_chunks, List.mem_filter] at hc
    have := hc.2
    simp only [decide_eq_true_eq] at this
    omega
  · intro c _ hlen hmem
    rw [get_text_chunks, List.mem_filter] at hmem
    have := hmem.2
    simp only [decide_eq_true_eq] at this
    omega

/-- Witness for C1 at a concrete splitter output: the long chunk is in
the result and satisfies the bound, the short chunk is discarded. -/
theorem c1_chunk_min_length_witness :
    longChunkA ∈ get_text_chunks stubSplitAB 10000 1000 [] ∧
    100 ≤ (trimL longChunkA).length ∧
    shortChunkB ∉ get_text_chunks stubSplitAB 10000 1000 [] :=
  ⟨by decide,
   (c1_chunk_min_length stubSplitAB 10000 1000 []).1 longChunkA (by decide),
   (c1_chunk_min_length stubSplitAB 10000 1000 []).2 shortChunkB (by decide) (by decide)⟩

/-! ## Claim C3 -/

/-- C3: with no index built, `process_question` answers that documents
must be uploaded first; with an index but empty retrieval, it answers
that no relevant information was found.  In both cases the citation
list is empty and the generation backend is not called (the `false`
flag). -/
theorem c3_empty_cases (search : List Str → Str → Nat → Except Str (List Str))
    (gen : List Str → Str → Except Str Str) (q : Str) :
    (process_question none search gen q =
      (⟨sl "Please upload and process documents first.", []⟩, false)) ∧
    (∀ vs, search vs q 5 = .ok [] →
      process_question (some vs) search gen q =
        (⟨sl "No relevant information found in the documents.", []⟩, false)) := by
  refine ⟨rfl, ?_⟩
  intro vs h
  simp [process_question, h]

/-- Witness for C3 with an empty-result retrieval stub. -/
theorem c3_empty_cases_witness :
    searchEmpty [] (sl "q") 5 = .ok [] ∧
    process_question (some []) searchEmpty genStub (sl "q") =
      (⟨sl "No relevant information found in the documents.", []⟩, false) :=
  ⟨rfl, (c3_empty_cases searchEmpty genStub (sl "q")).2 [] rfl⟩

/-! ## Claim C7 -/

/-- Occurrence counting commutes with `filterMap`: the filtered-mapped
list holds one copy of `c` per source element mapping to `some c`. -/
theorem countP_filterMap_eq {α β : Type} [DecidableEq β]
    (f : α → Option β) (l : List α) (c : β) :
    (l.filterMap f).countP (fun x => decide (x = c)) =
      l.countP (fun d => decide (f d = some c)) := by
  induction l with
  | nil => rfl
  | cons a t ih =>
    cases h : f a with
    | none => simp [List.filterMap_cons, h, List.countP_cons, ih]
    | some b => simp [List.filterMap_cons, h, List.countP_cons, ih]

/-- When retrieval and generation both succeed, `process_question`
returns the generated answer with the retrieved chunks' citations. -/
theorem process_question_ok_eq (search : List Str → Str → Nat → Except Str (List Str))
    (gen : List Str → Str → Except Str Str) (q : Str) (vs docs : List Str) (out : Str)
    (hs : search vs q 5 = .ok docs) (hne : docs ≠ []) (hg : gen docs q = .ok out) :
    process_question (some vs) search gen q =
      (⟨out, docs.filterMap extract_source_info⟩, true) := by
  cases docs with
  | nil => exact absurd rfl hne
  | cons d ds => simp [process_question, hs, hg]

/-- C7: on a successful answer, the citation list is exactly the
retrieved chunks' citations in retrieval order (`filterMap` keeps
relative order), and duplicates are preserved: each citation occurs
once per retrieved chunk that yields it. -/
theorem c7_citation_order (search : List Str → Str → Nat → Except Str (List Str))
    (gen : List Str → Str → Except Str Str) (q : Str) (vs docs : List Str) (out : Str)
    (hs : search vs q 5 = .ok docs) (hne : docs ≠ []) (hg : gen docs q = .ok out) :
    (process_question (some vs) search gen q).1.sources =
      docs.filterMap extract_source_info ∧
    ∀ c, ((process_question (some vs) search gen q).1.sources).countP
            (fun x => decide (x = c)) =
          docs.countP (fun d => decide (extract_source_info d = some c)) := by
  rw [process_question_ok_eq search gen q vs docs out hs hne hg]
  exact ⟨rfl, fun c => countP_filterMap_eq extract_source_info docs c⟩

/-- Witness for C7: retrieving the same chunk twice yields the same
citation twice, in order. -/
theorem c7_citation_order_witness :
    searchDup [] (sl "q") 5 =
      .ok [sl "\n\n--- Page 2 of doc.pdf ---\nbody", sl "\n\n--- Page 2 of doc.pdf ---\nbody"] ∧
    (process_question (some []) searchDup genStub (sl "q")).1.sources =
      [sl "\n\n--- Page 2 of doc.pdf ---\nbody",
       sl "\n\n--- Page 2 of doc.pdf ---\nbody"].filterMap extract_source_info :=
  ⟨rfl,
   (c7_citation_order searchDup genStub (sl "q") []
      [sl "\n\n--- Page 2 of doc.pdf ---\nbody", sl "\n\n--- Page 2 of doc.pdf ---\nbody"]
      (sl "answer") rfl (by decide) rfl).1⟩

/-! ## Claim C8 -/

/-- C8: when the generation backend raises, `process_question` returns
a result whose answer carries the failure message and whose citation
list is empty; being a total function, nothing propagates past it. -/
theorem c8_generation_failure (search : List Str → Str → Nat → Except Str (List Str))
    (gen : List Str → Str → Except Str Str) (q : Str) (vs docs : List Str) (e : Str)
    (hs : search vs q 5 = .ok docs) (hne : docs ≠ []) (hg : gen docs q = .error e) :
    process_question (some vs) search gen q =
      (⟨sl "Error processing question: " ++ e, []⟩, true) := by
  cases docs with
  | nil => exact absurd rfl hne
  | cons d ds => simp [process_question, hs, hg]

/-- Witness for C8 with an always-failing generation stub. -/
theorem c8_generation_failure_witness :
    genFail [sl "chunk"] (sl "q") = .error (sl "boom") ∧
    process_question (some []) (fun _ _ _ => .ok [sl "chunk"]) genFail (sl "q") =
      (⟨sl "Error processing question: " ++ sl "boom", []⟩, true) :=
  ⟨rfl,
   c8_generation_failure (fun _ _ _ => .ok [sl "chunk"]) genFail (sl "q") []
     [sl "chunk"] (sl "boom") rfl (by decide) rfl⟩

/-! ## Claim C4 -/

/-- C4: if the embedding backend fails on the batch built by the
ingestion loop, `process_documents` leaves the session's index
reference unchanged, and any subsequent question is answered against
the previous index exactly as before. -/
theorem c4_failed_build_keeps_index (splitter : Int → Int → Str → List Str)
    (chunk_size chunk_overlap : Int) (maxSizeMB : Nat) (time : Str)
    (embedOk : List Str → Bool) (files : List UploadedFile) (st : AppState)
    (h : embedOk (ingestScan splitter chunk_size chunk_overlap maxSizeMB time
            files st.processed_documents).1 = false) :
    (process_documents splitter chunk_size chunk_overlap maxSizeMB time
        embedOk files st).vector_store = st.vector_store ∧
    ∀ (search : List Str → Str → Nat → Except Str (List Str))
      (gen : List Str → Str → Except Str Str) (q : Str),
      process_question
        (process_documents splitter chunk_size chunk_overlap maxSizeMB time
          embedOk files st).vector_store search gen q =
      process_question st.vector_store search gen q := by
  have hv : (process_documents splitter chunk_size chunk_overlap maxSizeMB time
      embedOk files st).vector_store = st.vector_store := by
    rw [process_documents]
    by_cases hs : (ingestScan splitter chunk_size chunk_overlap maxSizeMB time
        files st.processed_documents).1.isEmpty
    · simp [hs]
    · simp [hs, h]
  exact ⟨hv, fun search gen q => by rw [hv]⟩

/-- Witness for C4: a concrete failed build keeps the previous index. -/
theorem c4_failed_build_keeps_index_witness :
    embedFail (ingestScan stubSplitId 10000 1000 50 (sl "t2") [fileGood]
      st0.processed_documents).1 = false ∧
    (process_documents stubSplitId 10000 1000 50 (sl "t2") embedFail
      [fileGood] st0).vector_store = st0.vector_store :=
  ⟨rfl,
   (c4_failed_build_keeps_index stubSplitId 10000 1000 50 (sl "t2") embedFail
     [fileGood] st0 rfl).1⟩

/-! ## Claim C5 -/

set_option maxRecDepth 8000 in
/-- C5 counterexample: with `overlap = chunk_size = 10`, a configuration
violating `0 ≤ overlap < chunk_size`, `get_text_chunks` raises nothing
and produces a chunk.  (The repository defines no
`InvalidChunkConfigError` and performs no configuration check; the
external langchain splitter only rejects `overlap > chunk_size`.) -/
theorem c5_invalid_config_counterexample :
    ¬ validChunkConfig 10 10 ∧
    get_text_chunks stubSplitId 10 10 longPage = [longPage] := by
  constructor
  · intro h
    exact absurd h.2 (by decide)
  · decide

/-- C5 amended: `get_text_chunks` performs no configuration validation;
for every configuration violating the precondition it still returns the
splitter's output filtered only by trimmed length, and every
sufficiently long splitter chunk survives. -/
theorem c5_no_config_validation (splitter : Int → Int → Str → List Str)
    (chunk_size chunk_overlap : Int) (text : Str)
    (_h : ¬ validChunkConfig chunk_size chunk_overlap) :
    get_text_chunks splitter chunk_size chunk_overlap text =
      (splitter chunk_size chunk_overlap text).filter
        (fun c => decide (100 < (trimL c).length)) ∧
    ∀ c ∈ splitter chunk_size chunk_overlap text, 100 < (trimL c).length →
      c ∈ get_text_chunks splitter chunk_size chunk_overlap text := by
  refine ⟨rfl, ?_⟩
  intro c hc hl
  rw [get_text_chunks, List.mem_filter]
  exact ⟨hc, by simpa using hl⟩

/-- Witness for the amended C5 at the invalid configuration `(10, 10)`. -/
theorem c5_no_config_validation_witness :
    ¬ validChunkConfig 10 10 ∧
    longChunkA ∈ get_text_chunks stubSplitAB 10 10 [] :=
  ⟨fun h => absurd h.2 (by decide),
   (c5_no_config_validation stubSplitAB 10 10 [] (fun h => absurd h.2 (by decide))).2
     longChunkA (by decide) (by decide)⟩

/-! ## Claim C6 -/

set_option maxRecDepth 8000 in
/-- C6 counterexample: in `fileBroken`, page 3 decodes to `"gamma"`,
yet extraction returns only page 1's span — the exception on page 2
aborts the per-document page loop, so the decodable page after it is
lost, contradicting the claim that all other decodable pages of the
same document are still returned. -/
theorem c6_failing_page_counterexample :
    fileBroken.pages.getD 2 none = some (sl "gamma") ∧
    get_pdf_text [fileBroken] = sl "\n\n--- Page 1 of d.pdf ---\nalpha" ∧
    strContains (get_pdf_text [fileBroken]) (sl "gamma") = false := by
  refine ⟨by decide, by decide, by decide⟩

/-- Pages before the first raising page are kept: extraction of a
document equals extraction of the prefix before the failure. -/
theorem pagesText_prefix_of_failure (name : Str) (good rest : List (Option Str))
    (n : Nat) (h : ∀ x ∈ good, x ≠ none) :
    pagesText name (good ++ none :: rest) n = pagesText name good n := by
  induction good generalizing n with
  | nil => rfl
  | cons x good' ih =>
    cases x with
    | none => exact absurd rfl (h none (List.mem_cons_self _ _))
    | some t =>
      simp only [List.cons_append, pagesText]
      exact congrArg _ (ih (n + 1) (fun y hy => h y (List.mem_cons_of_mem _ hy)))

/-- Folding the per-document concatenation from any accumulator. -/
theorem get_pdf_text_foldl (docs : List UploadedFile) (acc : Str) :
    docs.foldl (fun a d => a ++ docText d) acc = acc ++ get_pdf_text docs := by
  induction docs generalizing acc with
  | nil => simp [get_pdf_text]
  | cons d ds ih =>
    simp only [get_pdf_text, List.foldl_cons, List.nil_append]
    rw [ih (acc ++ docText d), ih (docText d), List.append_assoc]

/-- C6 amended: a page that raises during text extraction ends the page
loop of its own document, so extraction returns exactly the spans of
the decodable pages before it (later pages of the same document are
lost), while the other documents of the batch are extracted exactly as
if processed alone. -/
theorem c6_page_failure_isolation :
    (∀ (name : Str) (good rest : List (Option Str)) (n : Nat),
      (∀ x ∈ good, x ≠ none) →
      pagesText name (good ++ none :: rest) n = pagesText name good n) ∧
    (∀ (ds₁ : List UploadedFile) (d : UploadedFile) (ds₂ : List UploadedFile),
      get_pdf_text (ds₁ ++ d :: ds₂) =
        get_pdf_text ds₁ ++ docText d ++ get_pdf_text ds₂) := by
  refine ⟨pagesText_prefix_of_failure, ?_⟩
  intro ds₁ d ds₂
  show List.foldl (fun a d => a ++ docText d) [] (ds₁ ++ d :: ds₂) = _
  rw [List.foldl_append, List.foldl_cons, get_pdf_text_foldl ds₂]
  rfl

/-- Witness for the amended C6 at `fileBroken`: the document reduces to
its prefix before the failing page, and a document batch splits around it. -/
theorem c6_page_failure_isolation_witness :
    pagesText (sl "d.pdf") ([some (sl "alpha")] ++ none :: [some (sl "gamma")]) 0 =
      pagesText (sl "d.pdf") [some (sl "alpha")] 0 ∧
    get_pdf_text ([fileGood] ++ fileBroken :: [fileGood]) =
      get_pdf_text [fileGood] ++ docText fileBroken ++ get_pdf_text [fileGood] :=
  ⟨c6_page_failure_isolation.1 (sl "d.pdf") [some (sl "alpha")] [some (sl "gamma")] 0
     (by decide),
   c6_page_failure_isolation.2 [fileGood] fileBroken [fileGood]⟩

/-! ## Claim C9 -/

/-- `processOne` in accepted/rejected form. -/
theorem processOne_eq (splitter : Int → Int → Str → List Str)
    (chunk_size chunk_overlap : Int) (maxSizeMB : Nat) (time : Str)
    (acc : List Str × List (Str × Metadata)) (f : UploadedFile) :
    processOne splitter chunk_size chunk_overlap maxSizeMB time acc f =
      if acceptedFile splitter chunk_size chunk_overlap maxSizeMB f then
        (acc.1 ++ get_text_chunks splitter chunk_size chunk_overlap (get_pdf_text [f]),
         dictInsert f.name
           ⟨f.pages.length,
            (get_text_chunks splitter chunk_size chunk_overlap (get_pdf_text [f])).length,
            time⟩ acc.2)
      else acc := by
  by_cases h1 : validate_pdf_file maxSizeMB f
  · by_cases h2 : (trimL (get_pdf_text [f])).isEmpty
    · simp [processOne, acceptedFile, h1, h2]
    · by_cases h3 :
        (get_text_chunks splitter chunk_size chunk_overlap (get_pdf_text [f])).isEmpty
      · simp [processOne, acceptedFile, h1, h2, h3]
      · simp [processOne, acceptedFile, h1, h2, h3]
  · simp [processOne, acceptedFile, h1]

/-- The chunk batch accumulated by the ingestion loop is the
concatenation, in file order, of the accepted files' chunk lists. -/
theorem ingest_chunks (splitter : Int → Int → Str → List Str)
    (chunk_size chunk_overlap : Int) (maxSizeMB : Nat) (time : Str)
    (files : List UploadedFile) (cs0 : List Str) (r0 : List (Str × Metadata)) :
    (files.foldl (processOne splitter chunk_size chunk_overlap maxSizeMB time)
        (cs0, r0)).1 =
      cs0 ++ ((files.filter (acceptedFile splitter chunk_size chunk_overlap maxSizeMB)).map
        (fun f => get_text_chunks splitter chunk_size chunk_overlap (get_pdf_text [f]))).flatten := by
  induction files generalizing cs0 r0 with
  | nil => simp
  | cons f fs ih =>
    rw [List.foldl_cons, processOne_eq]
    by_cases h : acceptedFile splitter chunk_size chunk_overlap maxSizeMB f
    · rw [if_pos h, List.filter_cons_of_pos h, List.map_cons, List.flatten_cons, ih,
        List.append_assoc]
    · rw [if_neg h, List.filter_cons_of_neg (by simpa using h)]
      exact ih cs0 r0

/-- Updating one key of the registry keeps every other binding. -/
theorem dictInsert_mem_of_ne (k n : Str) (v m : Metadata)
    (r : List (Str × Metadata)) (hne : n ≠ k) (hmem : (n, m) ∈ r) :
    (n, m) ∈ dictInsert k v r := by
  induction r with
  | nil => cases hmem
  | cons p rest ih =>
    obtain ⟨k', v'⟩ := p
    rw [dictInsert]
    by_cases hk : k' = k
    · rw [if_pos hk]
      rcases List.mem_cons.mp hmem with heq | htail
      · have hn : n = k' := congrArg Prod.fst heq
        exact absurd (hk ▸ hn) hne
      · exact List.mem_cons_of_mem _ htail
    · rw [if_neg hk]
      rcases List.mem_cons.mp hmem with heq | htail
      · exact heq ▸ List.mem_cons_self _ _
      · exact List.mem_cons_of_mem _ (ih htail)

/-- The ingestion loop only rewrites registry entries of the processed
files' names. -/
theorem ingest_registry_mem (splitter : Int → Int → Str → List Str)
    (chunk_size chunk_overlap : Int) (maxSizeMB : Nat) (time : Str)
    (files : List UploadedFile) (acc : List Str × List (Str × Metadata))
    (n : Str) (m : Metadata) (hmem : (n, m) ∈ acc.2)
    (hname : ∀ f ∈ files, f.name ≠ n) :
    (n, m) ∈ (files.foldl (processOne splitter chunk_size chunk_overlap maxSizeMB time)
      acc).2 := by
  induction files generalizing acc with
  | nil => exact hmem
  | cons f fs ih =>
    rw [List.foldl_cons, processOne_eq]
    by_cases h : acceptedFile splitter chunk_size chunk_overlap maxSizeMB f
    · rw [if_pos h]
      refine ih _ ?_ (fun g hg => hname g (List.mem_cons_of_mem _ hg))
      exact dictInsert_mem_of_ne f.name n _ m acc.2
        (fun he => hname f (List.mem_cons_self _ _) he.symm) hmem
    · rw [if_neg h]
      exact ih acc (by exact hmem) (fun g hg => hname g (List.mem_cons_of_mem _ hg))

set_option maxRecDepth 8000 in
/-- C9 counterexample: re-ingesting a document named `a.pdf` (already
registered from an earlier call with metadata `⟨2, 3, "t1"⟩`) replaces
that registry entry, so the claim that the registry retains entries
from earlier calls unchanged fails — even though the call accepts the
document and rebuilds the index. -/
theorem c9_registry_overwrite_counterexample :
    (sl "a.pdf", (⟨2, 3, sl "t1"⟩ : Metadata)) ∈ st0.processed_documents ∧
    (process_documents stubSplitId 10000 1000 50 (sl "t2") embedGood
        [fileGood] st0).vector_store = some [get_pdf_text [fileGood]] ∧
    (sl "a.pdf", (⟨2, 3, sl "t1"⟩ : Metadata)) ∉
      (process_documents stubSplitId 10000 1000 50 (sl "t2") embedGood
        [fileGood] st0).processed_documents := by
  refine ⟨by decide, by decide, by decide⟩

/-- C9 amended: a call that accepts at least one document and whose
embedding backend succeeds rebuilds the index from scratch with exactly
the accepted files' chunks of this batch (earlier chunks are absent),
and registry entries whose document name is not in the current batch
are retained unchanged; a re-ingested name replaces its entry. -/
theorem c9_rebuild_semantics (splitter : Int → Int → Str → List Str)
    (chunk_size chunk_overlap : Int) (maxSizeMB : Nat) (time : Str)
    (embedOk : List Str → Bool) (files : List UploadedFile) (st : AppState)
    (hne : (ingestScan splitter chunk_size chunk_overlap maxSizeMB time files
        st.processed_documents).1 ≠ [])
    (hok : embedOk (ingestScan splitter chunk_size chunk_overlap maxSizeMB time files
        st.processed_documents).1 = true) :
    (process_documents splitter chunk_size chunk_overlap maxSizeMB time embedOk
        files st).vector_store =
      some (((files.filter (acceptedFile splitter chunk_size chunk_overlap maxSizeMB)).map
        (fun f => get_text_chunks splitter chunk_size chunk_overlap (get_pdf_text [f]))).flatten) ∧
    ∀ (n : Str) (m : Metadata), (n, m) ∈ st.processed_documents →
      (∀ f ∈ files, f.name ≠ n) →
      (n, m) ∈ (process_documents splitter chunk_size chunk_overlap maxSizeMB time
        embedOk files st).processed_documents := by
  have hie : (ingestScan splitter chunk_size chunk_overlap maxSizeMB time files
      st.processed_documents).1.isEmpty = false := by
    cases h : (ingestScan splitter chunk_size chunk_overlap maxSizeMB time files
        st.processed_documents).1 with
    | nil => exact absurd h hne
    | cons a t => rfl
  constructor
  · rw [process_documents]
    simp only [hie, Bool.false_eq_true, if_neg, not_false_iff, hok, if_pos]
    rw [ingestScan, ingest_chunks]
    simp
  · intro n m hmem hname
    rw [process_documents]
    simp only [hie, Bool.false_eq_true, if_neg, not_false_iff, hok, if_pos]
    exact ingest_registry_mem splitter chunk_size chunk_overlap maxSizeMB time files
      ([], st.processed_documents) n m hmem hname

set_option maxRecDepth 8000 in
/-- Witness for the amended C9: a concrete successful batch rebuilds
the index with exactly its own chunks. -/
theorem c9_rebuild_semantics_witness :
    (ingestScan stubSplitId 10000 1000 50 (sl "t2") [fileGood]
      st0.processed_documents).1 ≠ [] ∧
    (process_documents stubSplitId 10000 1000 50 (sl "t2") embedGood
        [fileGood] st0).vector_store =
      some ((([fileGood].filter (acceptedFile stubSplitId 10000 1000 50)).map
        (fun f => get_text_chunks stubSplitId 10000 1000 (get_pdf_text [f]))).flatten) :=
  ⟨by decide,
   (c9_rebuild_semantics stubSplitId 10000 1000 50 (sl "t2") embedGood [fileGood] st0
     (by decide) rfl).1⟩

/-! ## String lemmas -/

/-- No occurrence as a substring means `firstOcc` finds nothing. -/
theorem strContains_false_firstOcc (sep s : Str)
    (h : strContains s sep = false) : firstOcc sep s = none := by
  induction s with
  | nil => rfl
  | cons c t ih =>
    rw [strContains, Bool.or_eq_false_iff] at h
    simp [firstOcc, h.1, ih h.2]

/-- `splitFuel` does not cut a text with no separator occurrence. -/
theorem splitFuel_of_none (sep s : Str) (h : firstOcc sep s = none) :
    ∀ fuel, splitFuel sep fuel s = [s] := by
  intro fuel
  cases fuel with
  | zero => rfl
  | succ n => simp [splitFuel, h]

/-- Python split on a separator that does not occur returns the whole text. -/
theorem pySplit_of_no_occurrence (sep s : Str) (hsep : sep ≠ [])
    (h : strContains s sep = false) : pySplit sep s = [s] := by
  rw [pySplit, if_neg hsep]
  exact splitFuel_of_none sep s (strContains_false_firstOcc sep s h) s.length

/-- `findSome?` over a list of uniformly failing candidates fails. -/
theorem findSome?_none_of {α β : Type} (f : α → Option β) (l : List α)
    (h : ∀ x ∈ l, f x = none) : l.findSome? f = none := by
  induction l with
  | nil => rfl
  | cons a t ih =>
    rw [List.findSome?_cons, h a (List.mem_cons_self _ _)]
    exact ih fun x hx => h x (List.mem_cons_of_mem _ hx)

/-- Dropping at least one element makes `filterMap` strictly shorter. -/
theorem filterMap_length_lt {α β : Type} (f : α → Option β) (l : List α)
    (h : ∃ d ∈ l, f d = none) : (l.filterMap f).length < l.length := by
  induction l with
  | nil =>
    obtain ⟨d, hd, _⟩ := h
    cases hd
  | cons a t ih =>
    cases hfa : f a with
    | none =>
      rw [List.filterMap_cons_none hfa]
      calc (t.filterMap f).length ≤ t.length := List.length_filterMap_le f t
        _ < (a :: t).length := by simp
    | some b =>
      obtain ⟨d, hd, hdn⟩ := h
      rcases List.mem_cons.mp hd with rfl | hdt
      · rw [hfa] at hdn
        cases hdn
      · rw [List.filterMap_cons_some hfa]
        simpa using ih ⟨d, hdt, hdn⟩

/-! ## Claim C10 -/

/-- C10: a chunk none of whose lines carries both a page marker and the
literal `of` separator yields no citation and no error; consequently a
question whose retrieved chunks include such a chunk is answered with a
citation list strictly shorter than the retrieved-chunk list. -/
theorem c10_unparsable_chunk_skipped :
    (∀ content : Str,
      (∀ line ∈ splitChar '\n' content,
        strContains line (sl "--- Page") = false ∨
          strContains line (sl " of ") = false) →
      extract_source_info content = none) ∧
    (∀ (search : List Str → Str → Nat → Except Str (List Str))
       (gen : List Str → Str → Except Str Str) (q : Str)
       (vs docs : List Str) (out : Str),
      search vs q 5 = .ok docs → docs ≠ [] → gen docs q = .ok out →
      (∃ d ∈ docs, extract_source_info d = none) →
      ((process_question (some vs) search gen q).1.sources).length < docs.length) := by
  constructor
  · intro content h
    rw [extract_source_info]
    apply findSome?_none_of
    intro line hline
    rcases h line hline with hA | hB
    · simp [parseSourceLine, hA]
    · by_cases hc :
        (strContains line (sl "--- Page") && strContains line (sl "of")) = true
      · simp [parseSourceLine, hc, pySplit_of_no_occurrence _ _ (by decide) hB]
      · simp [parseSourceLine, hc]
  · intro search gen q vs docs out hs hne hg hex
    rw [process_question_ok_eq search gen q vs docs out hs hne hg]
    exact filterMap_length_lt _ _ hex

/-- Witness for C10: a marker-free retrieved chunk yields no citation,
and the citation list is shorter than the retrieved list. -/
theorem c10_unparsable_chunk_skipped_witness :
    extract_source_info (sl "plain chunk without any marker") = none ∧
    ((process_question (some []) searchNoMark genStub (sl "q")).1.sources).length <
      ([sl "plain chunk without any marker"] : List Str).length :=
  ⟨c10_unparsable_chunk_skipped.1 (sl "plain chunk without any marker") (by decide),
   c10_unparsable_chunk_skipped.2 searchNoMark genStub (sl "q") []
     [sl "plain chunk without any marker"] (sl "answer") rfl (by decide) rfl
     ⟨sl "plain chunk without any marker", by decide, by decide⟩⟩

/-! ## Lemmas for claim C2: parsing a marker-headed chunk -/

/-- A list is a prefix of itself extended by anything. -/
theorem isPrefixOf_append_self (n B : Str) : n.isPrefixOf (n ++ B) = true := by
  induction n with
  | nil => simp [List.isPrefixOf]
  | cons c t ih => simp [List.isPrefixOf, ih]

/-- Head mismatch refutes a prefix. -/
theorem not_pfx_of_head_ne (a b : Char) (as t : Str) (h : a ≠ b) :
    (a :: as).isPrefixOf (b :: t) = false := by
  simp only [List.isPrefixOf, beq_eq_false_iff_ne.mpr h, Bool.false_and]

/-- Second-character mismatch refutes a prefix. -/
theorem not_pfx_second (a₁ a₂ b₁ b₂ : Char) (as t : Str) (h : a₂ ≠ b₂) :
    (a₁ :: a₂ :: as).isPrefixOf (b₁ :: b₂ :: t) = false := by
  simp only [List.isPrefixOf, beq_eq_false_iff_ne.mpr h, Bool.false_and, Bool.and_false]

/-- Prefix-freeness at every position means no occurrence. -/
theorem firstOcc_none_of (sep s : Str)
    (h : ∀ i, sep.isPrefixOf (s.drop i) = false) : firstOcc sep s = none := by
  induction s with
  | nil => rfl
  | cons c t ih =>
    have h0 : sep.isPrefixOf (c :: t) = false := by simpa using h 0
    have ht : ∀ i, sep.isPrefixOf (t.drop i) = false := fun i => by simpa using h (i + 1)
    simp [firstOcc, h0, ih ht]

/-- The first occurrence sits exactly where a prefix match first holds. -/
theorem firstOcc_eq_of (sep s : Str) (n : Nat) (hsep : sep ≠ [])
    (hpre : sep.isPrefixOf (s.drop n) = true)
    (hno : ∀ i < n, sep.isPrefixOf (s.drop i) = false) :
    firstOcc sep s = some n := by
  induction s generalizing n with
  | nil =>
    rw [List.drop_nil] at hpre
    cases sep with
    | nil => exact absurd rfl hsep
    | cons a as => simp [List.isPrefixOf] at hpre
  | cons c t ih =>
    cases n with
    | zero =>
      have h0 : sep.isPrefixOf (c :: t) = true := by simpa using hpre
      rw [firstOcc, if_pos h0]
    | succ m =>
      have h0 : sep.isPrefixOf (c :: t) = false := by
        simpa using hno 0 (Nat.succ_pos m)
      rw [firstOcc, if_neg (by simp [h0])]
      rw [ih m (by simpa using hpre)
        (fun i hi => by simpa using hno (i + 1) (Nat.succ_lt_succ hi))]
      rfl

/-- Splitting a text of the shape `X ++ sep ++ Y` with no earlier
occurrence and none in `Y` yields exactly the two parts. -/
theorem pySplit_decomp (sep X Y : Str) (hsep : sep ≠ [])
    (hX : ∀ i < X.length, sep.isPrefixOf (((X ++ sep) ++ Y).drop i) = false)
    (hY : firstOcc sep Y = none) :
    pySplit sep ((X ++ sep) ++ Y) = [X, Y] := by
  have hocc : firstOcc sep ((X ++ sep) ++ Y) = some X.length := by
    apply firstOcc_eq_of sep _ X.length hsep
    · rw [List.append_assoc, List.drop_left]
      exact isPrefixOf_append_self sep Y
    · exact hX
  obtain ⟨a, as, rfl⟩ : ∃ a as, sep = a :: as := by
    cases sep with
    | nil => exact absurd rfl hsep
    | cons a as => exact ⟨a, as, rfl⟩
  have hL : ((X ++ a :: as) ++ Y).length
      = (X.length + as.length + Y.length) + 1 := by
    simp [List.length_append]
    omega
  rw [pySplit, if_neg hsep, hL]
  have htake : ((X ++ a :: as) ++ Y).take X.length = X := by
    rw [List.append_assoc]
    exact List.take_left X _
  have hdrop : ((X ++ a :: as) ++ Y).drop (X.length + (a :: as).length) = Y := by
    rw [show X.length + (a :: as).length = (X ++ a :: as).length from by
      simp [List.length_append]]
    exact List.drop_left _ _
  rw [splitFuel, hocc]
  show ((X ++ a :: as) ++ Y).take X.length ::
      splitFuel (a :: as) (X.length + as.length + Y.length)
        (((X ++ a :: as) ++ Y).drop (X.length + (a :: as).length)) = [X, Y]
  rw [htake, hdrop, splitFuel_of_none _ _ hY]

/-- `replFuel` is inert on the empty text. -/
theorem replFuel_nil (sep repl : Str) (fuel : Nat) :
    replFuel sep repl fuel [] = [] := by
  cases fuel with
  | zero => rfl
  | succ n => simp [replFuel, firstOcc]

/-- `dropWhile` keeps a list whose members all refute the predicate. -/
theorem dropWhile_all_false (p : Char → Bool) (s : Str)
    (h : ∀ c ∈ s, p c = false) : s.dropWhile p = s := by
  cases s with
  | nil => rfl
  | cons c t => simp [List.dropWhile_cons, h c (List.mem_cons_self _ _)]

/-- Stripping is the identity on whitespace-free text. -/
theorem trimL_no_ws (s : Str) (h : ∀ c ∈ s, c.isWhitespace = false) :
    trimL s = s := by
  rw [trimL, dropWhile_all_false _ _ h,
    dropWhile_all_false _ _ (fun c hc => h c (List.mem_reverse.mp hc)),
    List.reverse_reverse]

/-- A digit character is not whitespace. -/
theorem isDigit_not_ws (c : Char) (h : c.isDigit = true) :
    c.isWhitespace = false := by
  cases hw : c.isWhitespace
  · rfl
  · exfalso
    simp only [Char.isWhitespace, Bool.or_eq_true, decide_eq_true_eq] at hw
    rcases hw with ((rfl | rfl) | rfl) | rfl <;> exact absurd h (by decide)

/-- The characters produced by the decimal printer are digits. -/
theorem natStrAux_digits (fuel : Nat) :
    ∀ (n : Nat), ∀ c ∈ natStrAux fuel n, c.isDigit = true := by
  induction fuel with
  | zero =>
    intro n c hc
    cases hc
  | succ f ih =>
    intro n c hc
    rw [natStrAux] at hc
    by_cases hn : n < 10
    · rw [if_pos hn] at hc
      have : c = digitCh n := List.mem_singleton.mp hc
      subst this
      interval_cases n <;> decide
    · rw [if_neg hn] at hc
      rcases List.mem_append.mp hc with h1 | h2
      · exact ih (n / 10) c h1
      · have : c = digitCh (n % 10) := List.mem_singleton.mp h2
        subst this
        have h10 : n % 10 < 10 := Nat.mod_lt _ (by decide)
        interval_cases hm : n % 10 <;> decide

/-- Decimal digits of a natural number. -/
theorem natStr_digits (n : Nat) : ∀ c ∈ natStr n, c.isDigit = true :=
  natStrAux_digits (n + 1) n

/-- The decimal printer never returns the empty text. -/
theorem natStr_ne_nil (n : Nat) : natStr n ≠ [] := by
  rw [natStr, natStrAux]
  by_cases hn : n < 10
  · simp [hn]
  · simp [hn]

/-- Dropping past an appended prefix. -/
theorem drop_append_right (A B : Str) (i : Nat) (h : A.length ≤ i) :
    (A ++ B).drop i = B.drop (i - A.length) := by
  calc (A ++ B).drop i = (A ++ B).drop (A.length + (i - A.length)) := by
        congr 1
        omega
    _ = ((A ++ B).drop A.length).drop (i - A.length) := (List.drop_drop _ _ _).symm
    _ = B.drop (i - A.length) := by rw [List.drop_left]

/-- A separator whose head differs from every character has no occurrence. -/
theorem firstOcc_none_head_ne (c₀ : Char) (sep' s : Str)
    (h : ∀ c ∈ s, c₀ ≠ c) : firstOcc (c₀ :: sep') s = none := by
  apply firstOcc_none_of
  intro i
  by_cases hi : i < s.length
  · rw [List.drop_eq_getElem_cons hi]
    exact not_pfx_of_head_ne _ _ _ _ (h _ (List.getElem_mem hi))
  · rw [List.drop_eq_nil_of_le (Nat.le_of_not_lt hi)]
    simp [List.isPrefixOf]

/-- The separator `" of "` does not occur in `name ++ " ---"` when the
document name is whitespace-free. -/
theorem no_of_occ_name_tail (name : Str)
    (hname : ∀ c ∈ name, c.isWhitespace = false) :
    firstOcc (sl " of ") (name ++ sl " ---") = none := by
  apply firstOcc_none_of
  intro i
  rcases Nat.lt_or_ge i name.length with hi | hi
  · rw [List.drop_append_of_le_length (Nat.le_of_lt hi), List.drop_eq_getElem_cons hi,
      List.cons_append]
    refine not_pfx_of_head_ne _ _ _ _ ?_
    intro he
    have hm := hname _ (List.getElem_mem hi)
    rw [← he] at hm
    exact absurd hm (by decide)
  · rw [drop_append_right _ _ _ hi]
    set j := i - name.length with hj
    by_cases h4 : j < 4
    · interval_cases j
      · exact not_pfx_second ' ' 'o' ' ' '-' _ _ (by decide)
      · exact not_pfx_of_head_ne ' ' '-' _ _ (by decide)
      · exact not_pfx_of_head_ne ' ' '-' _ _ (by decide)
      · exact not_pfx_of_head_ne ' ' '-' _ _ (by decide)
    · rw [List.drop_eq_nil_of_le (by
        have hl4 : (sl " ---" : Str).length = 4 := by decide
        omega)]
      simp [List.isPrefixOf]

/-- No occurrence of `" of "` starts inside the `"--- Page " ++ digits`
head of a marker line. -/
theorem no_of_pfx_before_sep (d Z : Str) (hd1 : d ≠ [])
    (hd : ∀ c ∈ d, c.isDigit = true) :
    ∀ i < (sl "--- Page " ++ d).length,
      (sl " of ").isPrefixOf ((((sl "--- Page " ++ d) ++ sl " of ") ++ Z).drop i) = false := by
  obtain ⟨c₀, d', rfl⟩ : ∃ c₀ d', d = c₀ :: d' := by
    cases d with
    | nil => exact absurd rfl hd1
    | cons a as => exact ⟨a, as, rfl⟩
  have h9 : (sl "--- Page " : Str).length = 9 := by decide
  intro i hi
  have hiX : i < (sl "--- Page " ++ c₀ :: d').length := hi
  rw [List.length_append, h9] at hiX
  have hstep : ((((sl "--- Page " ++ c₀ :: d') ++ sl " of ") ++ Z)).drop i
      = (sl "--- Page " ++ c₀ :: d').drop i ++ (sl " of " ++ Z) := by
    rw [List.append_assoc, List.drop_append_of_le_length (Nat.le_of_lt hi)]
  rw [hstep]
  rcases Nat.lt_or_ge i 9 with hlt | hge
  · have hstep2 : (sl "--- Page " ++ c₀ :: d').drop i
        = (sl "--- Page ").drop i ++ c₀ :: d' := by
      rw [List.drop_append_of_le_length (by omega)]
    rw [hstep2]
    have hco : 'o' ≠ c₀ := by
      intro he
      have hdc := hd c₀ (List.mem_cons_self _ _)
      rw [← he] at hdc
      exact absurd hdc (by decide)
    interval_cases i
    · exact not_pfx_of_head_ne ' ' '-' _ _ (by decide)
    · exact not_pfx_of_head_ne ' ' '-' _ _ (by decide)
    · exact not_pfx_of_head_ne ' ' '-' _ _ (by decide)
    · exact not_pfx_second ' ' 'o' ' ' 'P' _ _ (by decide)
    · exact not_pfx_of_head_ne ' ' 'P' _ _ (by decide)
    · exact not_pfx_of_head_ne ' ' 'a' _ _ (by decide)
    · exact not_pfx_of_head_ne ' ' 'g' _ _ (by decide)
    · exact not_pfx_of_head_ne ' ' 'e' _ _ (by decide)
    · exact not_pfx_second ' ' 'o' ' ' c₀ _ _ hco
  · have hk : i - 9 < (c₀ :: d').length := by omega
    have hdropX : (sl "--- Page " ++ c₀ :: d').drop i
        = (c₀ :: d').drop (i - 9) := by
      rw [drop_append_right _ _ _ (by omega), h9]
    rw [hdropX, List.drop_eq_getElem_cons hk, List.cons_append]
    refine not_pfx_of_head_ne _ _ _ _ ?_
    intro he
    have hdc := hd _ (List.getElem_mem hk)
    rw [← he] at hdc
    exact absurd hdc (by decide)

/-- Replacing the final `" ---"` of `name ++ " ---"` recovers the name. -/
theorem pyReplace_strip_tail (name : Str)
    (hname : ∀ c ∈ name, c.isWhitespace = false) :
    pyReplace (name ++ sl " ---") (sl " ---") [] = name := by
  have h4 : (sl " ---" : Str).length = 4 := by decide
  have hocc : firstOcc (sl " ---") (name ++ sl " ---") = some name.length := by
    apply firstOcc_eq_of _ _ _ (by decide)
    · rw [List.drop_left]
      have := isPrefixOf_append_self (sl " ---") []
      rwa [List.append_nil] at this
    · intro i hi
      rw [List.drop_append_of_le_length (Nat.le_of_lt hi), List.drop_eq_getElem_cons hi,
        List.cons_append]
      refine not_pfx_of_head_ne _ _ _ _ ?_
      intro he
      have hm := hname _ (List.getElem_mem hi)
      rw [← he] at hm
      exact absurd hm (by decide)
  have hlen : (name ++ sl " ---").length = (name.length + 3) + 1 := by
    rw [List.length_append, h4]
  have hdropped : (name ++ sl " ---").drop (name.length + (sl " ---" : Str).length) = [] := by
    rw [show name.length + (sl " ---" : Str).length = (name ++ sl " ---").length from
      (List.length_append _ _).symm]
    exact List.drop_length _
  rw [pyReplace, if_neg (by decide), hlen, replFuel, hocc]
  show ((name ++ sl " ---").take name.length ++ [] ++
      replFuel (sl " ---") [] (name.length + 3)
        ((name ++ sl " ---").drop (name.length + (sl " ---" : Str).length))) = name
  rw [List.take_left, hdropped, replFuel_nil]
  simp

/-- Splitting the marker head on `"--- Page "` isolates the digits. -/
theorem pySplit_page_marker (d : Str) (hd : ∀ c ∈ d, c.isDigit = true) :
    pySplit (sl "--- Page ") (sl "--- Page " ++ d) = [[], d] := by
  have hY : firstOcc (sl "--- Page ") d = none := by
    have hne : ∀ c ∈ d, '-' ≠ c := by
      intro c hc he
      have hdc := hd c hc
      rw [← he] at hdc
      exact absurd hdc (by decide)
    exact firstOcc_none_head_ne '-' (sl "-- Page ") d hne
  have h := pySplit_decomp (sl "--- Page ") [] d (by decide)
    (by intro i hi; exact absurd hi (by simp)) hY
  simpa using h

/-- `needle` occurs in any text of the shape `A ++ needle ++ B`. -/
theorem strContains_of_decomp (A n B : Str) :
    strContains (A ++ (n ++ B)) n = true := by
  induction A with
  | nil =>
    rw [List.nil_append]
    cases hnb : n ++ B with
    | nil =>
      have hn : n = [] := (List.append_eq_nil.mp hnb).1
      rw [hn]
      rfl
    | cons x xs =>
      have hpfx : n.isPrefixOf (x :: xs) = true := hnb ▸ isPrefixOf_append_self n B
      rw [strContains]
      simp [hpfx]
  | cons a A' ih =>
    rw [List.cons_append, strContains]
    simp [ih]

/-- Parsing a full marker line recovers the document name and the page
digits. -/
theorem parseSourceLine_marker (d name : Str) (hd1 : d ≠ [])
    (hd : ∀ c ∈ d, c.isDigit = true)
    (hname : ∀ c ∈ name, c.isWhitespace = false) :
    parseSourceLine (((sl "--- Page " ++ d) ++ sl " of ") ++ (name ++ sl " ---"))
      = some (name, d) := by
  have hsplit : pySplit (sl " of ")
      (((sl "--- Page " ++ d) ++ sl " of ") ++ (name ++ sl " ---"))
      = [sl "--- Page " ++ d, name ++ sl " ---"] :=
    pySplit_decomp (sl " of ") (sl "--- Page " ++ d) (name ++ sl " ---") (by decide)
      (no_of_pfx_before_sep d (name ++ sl " ---") hd1 hd) (no_of_occ_name_tail name hname)
  have hA : strContains (((sl "--- Page " ++ d) ++ sl " of ") ++ (name ++ sl " ---"))
      (sl "--- Page") = true := by
    have harr : (((sl "--- Page " ++ d) ++ sl " of ") ++ (name ++ sl " ---"))
        = [] ++ (sl "--- Page" ++ ((' ' :: d) ++ (sl " of " ++ (name ++ sl " ---")))) := by
      rw [show (sl "--- Page " : Str) = sl "--- Page" ++ (' ' :: []) from rfl]
      simp [List.append_assoc]
    rw [harr]
    exact strContains_of_decomp [] (sl "--- Page") _
  have hB : strContains (((sl "--- Page " ++ d) ++ sl " of ") ++ (name ++ sl " ---"))
      (sl "of") = true := by
    have harr : (((sl "--- Page " ++ d) ++ sl " of ") ++ (name ++ sl " ---"))
        = ((sl "--- Page " ++ d) ++ (' ' :: []))
            ++ (sl "of" ++ ((' ' :: []) ++ (name ++ sl " ---"))) := by
      rw [show (sl " of " : Str) = (' ' :: []) ++ (sl "of" ++ (' ' :: [])) from rfl]
      simp [List.append_assoc]
    rw [harr]
    exact strContains_of_decomp _ (sl "of") _
  rw [parseSourceLine, if_pos (by rw [hA, hB]; rfl)]
  have hsplit' := hsplit
  simp only [List.append_assoc] at hsplit'
  simp [hsplit', pyReplace_strip_tail name hname, pySplit_page_marker d hd,
    trimL_no_ws name hname,
    trimL_no_ws d (fun c hc => isDigit_not_ws c (hd c hc))]

/-- `splitChar` never returns the empty list. -/
theorem splitChar_ne_nil (sep : Char) (s : Str) : splitChar sep s ≠ [] := by
  cases s with
  | nil => simp [splitChar]
  | cons c t =>
    rw [splitChar]
    cases h : splitChar sep t with
    | nil => simp
    | cons l ls => by_cases hc : c = sep <;> simp [hc]

/-- Splitting after a leading separator yields a leading empty line. -/
theorem splitChar_sep_cons (sep : Char) (s : Str) :
    splitChar sep (sep :: s) = [] :: splitChar sep s := by
  rw [splitChar]
  cases h : splitChar sep s with
  | nil => exact absurd h (splitChar_ne_nil sep s)
  | cons l ls => simp

/-- A separator-free prefix becomes the first line of the split. -/
theorem splitChar_no_sep_append (sep : Char) (A B : Str)
    (h : ∀ c ∈ A, c ≠ sep) :
    splitChar sep (A ++ sep :: B) = A :: splitChar sep B := by
  induction A with
  | nil => simpa using splitChar_sep_cons sep B
  | cons a A' ih =>
    rw [List.cons_append, splitChar, ih (fun c hc => h c (List.mem_cons_of_mem _ hc))]
    simp [h a (List.mem_cons_self _ _)]

/-- Extracting a source citation from a chunk that starts with a page
marker returns that marker's document name and page digits, whatever
text follows. -/
theorem extract_marker_content (d name body : Str) (hd1 : d ≠ [])
    (hd : ∀ c ∈ d, c.isDigit = true)
    (hname : ∀ c ∈ name, c.isWhitespace = false) :
    extract_source_info (sl "\n\n--- Page " ++ d ++ sl " of " ++ name ++ sl " ---\n" ++ body)
      = some (name, d) := by
  have hnl : ∀ c ∈ (((sl "--- Page " ++ d) ++ sl " of ") ++ (name ++ sl " ---")),
      c ≠ '\n' := by
    intro c hc he
    subst he
    simp only [List.mem_append] at hc
    rcases hc with ((h1 | h1) | h1) | (h1 | h1)
    · exact absurd h1 (by decide)
    · exact absurd (hd '\n' h1) (by decide)
    · exact absurd h1 (by decide)
    · exact absurd (hname '\n' h1) (by decide)
    · exact absurd h1 (by decide)
  have hshape : sl "\n\n--- Page " ++ d ++ sl " of " ++ name ++ sl " ---\n" ++ body
      = '\n' :: '\n' ::
          ((((sl "--- Page " ++ d) ++ sl " of ") ++ (name ++ sl " ---")) ++ '\n' :: body) := by
    rw [show (sl "\n\n--- Page " : Str) = '\n' :: '\n' :: sl "--- Page " from rfl,
      show (sl " ---\n" : Str) = sl " ---" ++ ('\n' :: []) from rfl]
    simp [List.append_assoc]
  rw [hshape, extract_source_info, splitChar_sep_cons, splitChar_sep_cons,
    splitChar_no_sep_append '\n' _ _ hnl]
  have hnil : parseSourceLine ([] : Str) = none := rfl
  rw [List.findSome?_cons, hnil, List.findSome?_cons, hnil, List.findSome?_cons,
    parseSourceLine_marker d name hd1 hd hname]

/-- Spec-side and code-side page segmentation agree: the extracted text
is the concatenation of the tagged page segments. -/
theorem pageSegments_flatten (name : Str) (pages : List (Option Str)) (n : Nat) :
    ((pageSegments name pages n).map Prod.snd).flatten = pagesText name pages n := by
  induction pages generalizing n with
  | nil => rfl
  | cons p rest ih =>
    cases p with
    | none => rfl
    | some t =>
      by_cases ht : (trimL t).isEmpty
      · simp [pageSegments, pagesText, ht, ih]
      · simp [pageSegments, pagesText, ht, ih]

/-! ## Claim C2 -/

set_option maxRecDepth 20000 in
/-- C2 counterexample: in the two-page document `docTwoPages`, the
chunk `spanChunk` (a contiguous region of `get_pdf_text`'s output,
producible by the chunking step) starts at position 60 — owned by page
1 per the spec's page segmentation — and ends at position 163 inside
page 2, so it spans the page boundary with starting page 1; yet the
code's citation for it is page "2", not the chunk's starting page. -/
theorem c2_span_counterexample :
    ((pageSegments (sl "doc.pdf") docTwoPages.pages 0).map Prod.snd).flatten
      = twoPageText ∧
    pageOfPos (pageSegments (sl "doc.pdf") docTwoPages.pages 0) 60 = some 1 ∧
    pageOfPos (pageSegments (sl "doc.pdf") docTwoPages.pages 0) 163 = some 2 ∧
    spanChunk = (twoPageText.drop 60).take 104 ∧
    get_text_chunks (fun _ _ _ => [spanChunk]) 10000 1000 twoPageText = [spanChunk] ∧
    extract_source_info spanChunk = some (sl "doc.pdf", sl "2") ∧
    sl "2" ≠ natStr 1 := by
  exact ⟨by decide, by decide, by decide, rfl, by decide, by decide, by decide⟩

/-- C2 amended: the citation derived for a chunk is the document and
page of the first page marker occurring in the chunk's content.  For a
chunk that begins at a page boundary — its content starting with page
`n+1`'s marker, as produced by `get_pdf_text` — the citation is that
page, the chunk's starting page, whatever further text (including later
pages) the chunk contains; but a chunk that begins mid-page carries the
following page's marker first and is cited with that page instead of
its starting page (see the counterexample). -/
theorem c2_first_marker_citation (name t : Str) (rest : List (Option Str)) (n : Nat)
    (hname : ∀ c ∈ name, c.isWhitespace = false)
    (ht : (trimL t).isEmpty = false) :
    extract_source_info (pagesText name (some t :: rest) n)
      = some (name, natStr (n + 1)) := by
  have hpt : pagesText name (some t :: rest) n
      = sl "\n\n--- Page " ++ natStr (n + 1) ++ sl " of " ++ name ++ sl " ---\n"
          ++ (t ++ pagesText name rest (n + 1)) := by
    simp [pagesText, ht, List.append_assoc]
  rw [hpt]
  exact extract_marker_content (natStr (n + 1)) name (t ++ pagesText name rest (n + 1))
    (natStr_ne_nil _) (natStr_digits _) hname

/-- Witness for the amended C2: a chunk that is exactly one extracted
page is cited with that page. -/
theorem c2_first_marker_citation_witness :
    (∀ c ∈ sl "doc.pdf", c.isWhitespace = false) ∧
    ((trimL page2).isEmpty = false) ∧
    extract_source_info (pagesText (sl "doc.pdf") [some page2] 0)
      = some (sl "doc.pdf", natStr (0 + 1)) :=
  ⟨by decide, by decide,
   c2_first_marker_citation (sl "doc.pdf") page2 [] 0 (by decide) (by decide)⟩
